import Mathlib

/-!
Verification of the leansdr streaming blocks (`src/leansdr/generic.h`).

Each block's `run` method is embedded as a pure Lean function over explicit
state.  Stream endpoints (`pipebuf` readers/writers, external to this
repository) are modelled by their contract: the readable side of a stream is
the list of currently readable elements, the writable side is its capacity in
elements, and a run function returns what the block commits (elements
consumed, elements or values emitted, updated persistent state).  POSIX
descriptor I/O is modelled by an oracle: the successive return values of
`read`/`write`/`snprintf` calls are inputs of the embedding.  Element values
and the rate estimator's accumulators use exact `ℚ` arithmetic; element and
byte counts use `Nat`/`Int`.  `fatal`/`fail` calls are `Except.error`.
-/

/-! ### serializer (generic.h, construction)

`serializer::serializer` computes
  `nin  = max((size_t)1, sizeof(Tin)/sizeof(Tout))`
  `nout = max((size_t)1, sizeof(Tout)/sizeof(Tin))`
and calls `fail("serializer: incompatible sizes")` when
`nin*sizeof(Tin) != nout*sizeof(Tout)`.  `a` is `sizeof(Tin)`, `b` is
`sizeof(Tout)`; both are positive in C. -/

/-- `nin` as computed by the serializer constructor: `max(1, sizeof(Tin)/sizeof(Tout))`. -/
def serializer_nin (a b : Nat) : Nat := max 1 (a / b)

/-- `nout` as computed by the serializer constructor: `max(1, sizeof(Tout)/sizeof(Tin))`. -/
def serializer_nout (a b : Nat) : Nat := max 1 (b / a)

/-- The constructor's size check: construction succeeds (no `fail`) exactly when
`nin*sizeof(Tin) == nout*sizeof(Tout)`. -/
def serializer_ctor_ok (a b : Nat) : Bool :=
  serializer_nin a b * a == serializer_nout a b * b

/-! ### file_reader (generic.h, `file_reader::run`)

The descriptor is modelled as the list of results of successive `read` calls.
`tornLoop` is the element-boundary completion loop: while `remain` bytes of
the torn final element are missing, another `read` is issued; a result
`nr2 <= 0` is `fatal("partial read")`.  An exhausted oracle (the environment
supplies no further read result while bytes remain) is the error "starved";
the real loop would block there, so no theorem rests on that branch. -/

/-- The `while (remain)` completion loop of `file_reader::run`: consumes read
results from `rs`, accumulating into the byte count `nr` until `remain = 0`. -/
def tornLoop (rs : List Int) (nr remain : Nat) : Except String Nat :=
  match remain, rs with
  | 0, _ => Except.ok nr
  | _+1, [] => Except.error "starved"
  | m+1, r :: rest =>
    if r ≤ 0 then Except.error "partial read"
    else tornLoop rest (nr + r.toNat) (m + 1 - r.toNat)

/-- POSIX contract on the completion reads: each `read(fd, buf, remain)`
returns at most the `remain` bytes it was asked for. -/
def boundedReads : List Int → Nat → Bool
  | [], _ => true
  | r :: rs, remain => decide (r.toNat ≤ remain) && boundedReads rs (remain - r.toNat)

/-- Total byte count delivered by a list of read results. -/
def sumToNat (l : List Int) : Nat := (l.map Int.toNat).sum

/-- `file_reader::run` with `loop = false` (the constructor's default): `w` is
`sizeof(T)`, `writable` the output stream capacity in elements, `reads` the
oracle of `read` results.  Returns the number of whole elements committed via
`out.written(nr / sizeof(T))`, or the `fatal` message. -/
def fileReader_run (w writable : Nat) (reads : List Int) : Except String Nat :=
  if writable * w = 0 then Except.ok 0
  else
    match reads with
    | [] => Except.error "starved"
    | r :: rs =>
      if r < 0 then Except.error "read"
      else if r = 0 then Except.ok 0
      else
        let nr := r.toNat
        let rem := if nr % w ≠ 0 then w - nr % w else 0
        match tornLoop rs nr rem with
        | Except.ok total => Except.ok (total / w)
        | Except.error e => Except.error e

/-! ### file_writer (generic.h, `file_writer::run`) -/

/-- `file_writer::run`: `st` is `sizeof(T)`, `readable` the input element
count, `nw` the result of the single `write` call.  Returns the number of
elements consumed by `in.read(nw/sizeof(T))`. -/
def file_writer_run (st readable : Nat) (nw : Int) : Except String Nat :=
  if readable * st = 0 then Except.ok 0
  else if nw = 0 then Except.error "pipe"
  else if nw < 0 then Except.error "write"
  else if nw.toNat % st ≠ 0 then Except.error "partial write"
  else Except.ok (nw.toNat / st)

/-! ### file_printer (generic.h, `file_printer::run`)

The per-element loop body is `if (++phase >= decimation) { phase -= decimation;
... emit ... }`.  A successfully emitted line is abstracted to its numeric
content `(*pin) * scale` (the `snprintf` rendering of that number is external
formatting).  `run` returns the final phase, the emitted values in order, and
the consumed element count `in.read(n)`. -/

/-- The `for ( ; pin<pend; ++pin )` loop of `file_printer::run`. -/
def printerLoop (d : Int) (s : ℚ) : Int → List ℚ → Int × List ℚ
  | phase, [] => (phase, [])
  | phase, x :: xs =>
    let p := phase + 1
    if d ≤ p then
      let r := printerLoop d s (p - d) xs
      (r.1, x * s :: r.2)
    else
      printerLoop d s p xs

/-- `file_printer::run`: returns (final phase, emitted values, consumed count). -/
def file_printer_run (d : Int) (s : ℚ) (phase : Int) (l : List ℚ) :
    Int × List ℚ × Nat :=
  let r := printerLoop d s phase l
  (r.1, r.2, l.length)

/-- `sizeof(buf)` of the staging buffer `char buf[256]` in `file_printer::run`. -/
def printer_bufsize : Nat := 256

/-- The I/O outcome checks of one `file_printer` emission: `len` is the
`snprintf` result, `nw` the `write` result.  `len < 0` is
`fatal("obsolete glibc")`; `nw != len` is `fatal("partial write")`; the code
performs no other check. -/
def printer_emit (len nw : Int) : Except String Unit :=
  if len < 0 then Except.error "obsolete glibc"
  else if nw ≠ len then Except.error "partial write"
  else Except.ok ()

/-! ### file_carrayprinter (generic.h, `file_carrayprinter::run`) -/

/-- `file_carrayprinter::run`: emits the scaled component pairs when there is
input and `fout` is usable, and always consumes everything readable. -/
def carrayprinter_run (foutOk : Bool) (s : ℚ) (l : List (ℚ × ℚ)) :
    List (ℚ × ℚ) × Nat :=
  (if 0 < l.length ∧ foutOk = true then l.map (fun p => (p.1 * s, p.2 * s)) else [],
   l.length)

/-! ### itemcounter (generic.h, `itemcounter::run`) -/

/-- `itemcounter::run`: returns (emitted count value, consumed count). -/
def itemcounter_run (readable writable : Nat) : Option Nat × Nat :=
  if writable < 1 then (none, 0)
  else if readable = 0 then (none, 0)
  else (some readable, readable)

/-! ### decimator (generic.h)

`decimator::run` computes `count = min(in.readable()/d, out.writable())`,
copies `*pin` for `pin = rd(), rd()+d, ..., rd()+(count-1)*d`, then
`in.read(count*d); out.written(count)`. -/

/-- The copy loop of `decimator::run`: `count` iterations, keeping the head
element and skipping `d` input elements per iteration. -/
def decLoop {α : Type} (d : Nat) : Nat → List α → List α
  | 0, _ => []
  | _+1, [] => []
  | n+1, x :: xs => x :: decLoop d n ((x :: xs).drop d)

/-- `decimator::run`: returns (forwarded elements, consumed element count). -/
def decimator_run {α : Type} (d : Nat) (input : List α) (writable : Nat) :
    List α × Nat :=
  let count := min (input.length / d) writable
  (decLoop d count input, count * d)

/-- The decimator constructor `decimator(scheduler*, int _d, ...)`: the `int`
argument is stored in the `unsigned int d` member with no validation, i.e.
converted modulo 2^32. -/
def decimator_ctor (d : Int) : Nat := (d % 4294967296).toNat

/-- `decimator::run` with the C division made explicit: unsigned division by
zero is undefined (traps) in C, so the step is well-defined only for `d ≠ 0`;
`none` marks the reachable division by zero of `in.readable()/d`. -/
def decimator_run_checked {α : Type} (d : Nat) (input : List α) (writable : Nat) :
    Option (List α × Nat) :=
  if d = 0 then none else some (decimator_run d input writable)

/-! ### rate_estimator (generic.h, `rate_estimator::run`)

The accumulators `T acc_num, acc_den` and the emitted
`(float)acc_num / acc_den` are modelled in exact `ℚ` arithmetic; the `int`
input samples and the `int sample_size` threshold stay `Int`. -/

/-- Persistent state of `rate_estimator`: the two running sums. -/
structure RateEst where
  acc_num : ℚ
  acc_den : ℚ
deriving DecidableEq

/-- The `for ( int n=count; n--; ++pnum,++pden )` accumulation loop of
`rate_estimator::run`. -/
def accLoop : Nat → List Int → List Int → ℚ → ℚ → ℚ × ℚ
  | 0, _, _, an, ad => (an, ad)
  | _+1, [], _, an, ad => (an, ad)
  | _+1, _ :: _, [], an, ad => (an, ad)
  | n+1, x :: xs, y :: ys, an, ad => accLoop n xs ys (an + x) (ad + y)

/-- Sum of a list of `int` samples, as a rational. -/
def sumQ (l : List Int) : ℚ := (l.map (fun x => (x : ℚ))).sum

/-- `rate_estimator::run`: `ss` is `sample_size`, `s` the accumulator state,
`nums`/`dens` the readable elements of the two input streams, `writable` the
output capacity.  Returns (new state, count consumed from each input, emitted
ratio if any). -/
def rate_estimator_run (ss : Int) (s : RateEst) (nums dens : List Int)
    (writable : Nat) : RateEst × Nat × Option ℚ :=
  if writable < 1 then (s, 0, none)
  else
    let count := min nums.length dens.length
    let acc := accLoop count nums dens s.acc_num s.acc_den
    if (ss : ℚ) ≤ acc.2 then (⟨0, 0⟩, count, some (acc.1 / acc.2))
    else (⟨acc.1, acc.2⟩, count, none)

/-! ### serializer (generic.h, `serializer::run`)

The `while ( in.readable()>=nin && out.writable()>=nout )` copy loop, counted
in elements consumed and produced.  `fuel` bounds the iteration count (the
real loop terminates because each iteration consumes `nin ≥ 1` elements). -/

/-- The copy loop of `serializer::run`: returns (input elements consumed,
output elements produced). -/
def serLoop (nin nout : Nat) : Nat → Nat → Nat → Nat × Nat
  | 0, _, _ => (0, 0)
  | fuel+1, readable, writable =>
    if nin ≤ readable ∧ nout ≤ writable then
      let r := serLoop nin nout fuel (readable - nin) (writable - nout)
      (r.1 + nin, r.2 + nout)
    else (0, 0)

/-! ### buffer_reader / buffer_writer (generic.h) -/

/-- `buffer_reader::run`: elements produced, `min(out.writable(), count-pos)`. -/
def buffer_reader_run (count pos writable : Nat) : Nat :=
  min writable (count - pos)

/-- `buffer_writer::run`: elements consumed, `min(in.readable(), count-pos)`. -/
def buffer_writer_run (count pos readable : Nat) : Nat :=
  min readable (count - pos)

/-! ## Helper lemmas -/

lemma tornLoop_exact (rs : List Int) (nr remain : Nat)
    (hb : boundedReads rs remain = true) (t : Nat)
    (h : tornLoop rs nr remain = Except.ok t) : t = nr + remain := by
  induction rs generalizing nr remain with
  | nil =>
    cases remain with
    | zero => simp [tornLoop] at h; omega
    | succ m => simp [tornLoop] at h
  | cons r rest ih =>
    cases remain with
    | zero => simp [tornLoop] at h; omega
    | succ m =>
      simp only [boundedReads, Bool.and_eq_true, decide_eq_true_eq] at hb
      simp only [tornLoop] at h
      by_cases hr : r ≤ 0
      · simp [hr] at h
      · rw [if_neg hr] at h
        have := ih (nr + r.toNat) (m + 1 - r.toNat) hb.2 h
        omega

lemma tornLoop_fatal (pre : List Int) :
    ∀ (remain : Nat), (∀ x ∈ pre, 0 < x) → sumToNat pre < remain →
    ∀ (r : Int) (suf : List Int) (nr : Nat), r ≤ 0 →
    tornLoop (pre ++ r :: suf) nr remain = Except.error "partial read" := by
  induction pre with
  | nil =>
    intro remain _ hlt r suf nr hr
    cases remain with
    | zero => simp [sumToNat] at hlt
    | succ m => simp [tornLoop, hr]
  | cons x pre ih =>
    intro remain hpos hlt r suf nr hr
    have hx : 0 < x := hpos x (List.mem_cons_self x pre)
    have hsum : sumToNat (x :: pre) = x.toNat + sumToNat pre := by
      simp [sumToNat]
    cases remain with
    | zero => omega
    | succ m =>
      simp only [List.cons_append, tornLoop]
      rw [if_neg (by omega)]
      exact ih (m + 1 - x.toNat) (fun y hy => hpos y (List.mem_cons_of_mem x hy))
        (by omega) r suf (nr + x.toNat) hr

lemma accLoop_eq (count : Nat) (xs ys : List Int) (an ad : ℚ)
    (hx : count ≤ xs.length) (hy : count ≤ ys.length) :
    accLoop count xs ys an ad =
      (an + sumQ (xs.take count), ad + sumQ (ys.take count)) := by
  induction count generalizing xs ys an ad with
  | zero => simp [accLoop, sumQ]
  | succ n ih =>
    cases xs with
    | nil => simp at hx
    | cons x xs =>
      cases ys with
      | nil => simp at hy
      | cons y ys =>
        simp only [List.length_cons] at hx hy
        rw [show accLoop (n+1) (x :: xs) (y :: ys) an ad
              = accLoop n xs ys (an + x) (ad + y) from rfl,
          ih xs ys (an + x) (ad + y) (by omega) (by omega)]
        simp [sumQ]
        constructor <;> ring

lemma rate_estimator_zero_writable (ss : Int) (s : RateEst)
    (nums dens : List Int) :
    rate_estimator_run ss s nums dens 0 = (s, 0, none) := by
  simp [rate_estimator_run]

lemma decLoop_length {α : Type} (d : Nat) (hd : 1 ≤ d) :
    ∀ (count : Nat) (l : List α), count * d ≤ l.length →
    (decLoop d count l).length = count := by
  intro count
  induction count with
  | zero => intro l _; simp [decLoop]
  | succ n ih =>
    intro l hlen
    cases l with
    | nil => simp at hlen; omega
    | cons x xs =>
      show (x :: decLoop d n ((x :: xs).drop d)).length = n + 1
      have hdrop : ((x :: xs).drop d).length = (x :: xs).length - d := by
        simp [List.length_drop]
      have : n * d ≤ ((x :: xs).drop d).length := by
        simp only [hdrop, List.length_cons]
        simp only [List.length_cons] at hlen
        have hm : (n + 1) * d = n * d + d := Nat.succ_mul n d
        omega
      simp [ih ((x :: xs).drop d) this]

lemma decLoop_get {α : Type} (d : Nat) (hd : 1 ≤ d) :
    ∀ (count : Nat) (l : List α), count * d ≤ l.length →
    ∀ i, i < count → (decLoop d count l)[i]? = l[i * d]? := by
  intro count
  induction count with
  | zero => intro l _ i hi; omega
  | succ n ih =>
    intro l hlen i hi
    cases l with
    | nil => simp at hlen; omega
    | cons x xs =>
      show (x :: decLoop d n ((x :: xs).drop d))[i]? = (x :: xs)[i * d]?
      cases i with
      | zero => simp
      | succ j =>
        have hdl : n * d ≤ ((x :: xs).drop d).length := by
          simp only [List.length_drop, List.length_cons]
          simp only [List.length_cons] at hlen
          have hm : (n + 1) * d = n * d + d := Nat.succ_mul n d
          omega
        have hj : j < n := by omega
        calc (x :: decLoop d n ((x :: xs).drop d))[j + 1]?
            = (decLoop d n ((x :: xs).drop d))[j]? := by simp
          _ = ((x :: xs).drop d)[j * d]? := ih ((x :: xs).drop d) hdl j hj
          _ = (x :: xs)[d + j * d]? := List.getElem?_drop (x :: xs) d (j * d)
          _ = (x :: xs)[(j + 1) * d]? := by ring_nf

lemma addSelfEmod (d x : Int) : (d + x) % d = x % d := by
  rw [Int.add_comm]
  simp


lemma range_succ_filter_map {β : Type} (n : Nat) (q : Nat → Bool) (g : Nat → β) :
    ((List.range (n + 1)).filter q).map g =
      (if q 0 then [g 0] else []) ++
      ((List.range n).filter (fun i => q (i + 1))).map (fun i => g (i + 1)) := by
  rw [List.range_succ_eq_map, List.filter_cons]
  by_cases h : q 0
  · rw [if_pos h, if_pos h, List.filter_map, List.map_cons, List.map_map]
    simp [Function.comp_def, Nat.succ_eq_add_one]
  · rw [if_neg h, if_neg h, List.filter_map, List.map_map]
    simp [Function.comp_def, Nat.succ_eq_add_one]

lemma printerLoop_out (d : Int) (s : ℚ) :
    ∀ (l : List ℚ) (p : Int), 0 ≤ p → p < d →
    (printerLoop d s p l).2 =
      ((List.range l.length).filter
          (fun (i : Nat) => decide ((p + (i : Int) + 1) % d = 0))).map
        (fun i => l.getD i 0 * s) := by
  intro l
  induction l with
  | nil =>
    intro p h0 hp
    simp [printerLoop]
  | cons x xs ih =>
    intro p h0 hp
    rw [show (x :: xs).length = xs.length + 1 from rfl, range_succ_filter_map]
    simp only [List.getD_cons_zero, List.getD_cons_succ, Nat.cast_zero,
      add_zero, Nat.cast_add, Nat.cast_one]
    by_cases htr : d ≤ p + 1
    · have hpd : p + 1 = d := by omega
      have hc : (p + 1) % d = 0 := by
        rw [hpd]
        exact Int.emod_self
      rw [if_pos (by simp [hc]), List.singleton_append]
      have hloop : (printerLoop d s p (x :: xs)).2
          = x * s :: (printerLoop d s 0 xs).2 := by
        simp only [printerLoop]
        rw [if_pos htr, show p + 1 - d = 0 by omega]
      rw [hloop, ih 0 le_rfl (by omega)]
      congr 1
      congr 1
      apply List.filter_congr
      intro i _
      have he : (p + ((i : Int) + 1) + 1) % d = (0 + (i : Int) + 1) % d := by
        rw [show p + ((i : Int) + 1) + 1 = d + ((i : Int) + 1) by omega,
          addSelfEmod, zero_add, add_comm]
      rw [he]
    · have hc : (p + 1) % d = p + 1 := Int.emod_eq_of_lt (by omega) (by omega)
      rw [if_neg (by simp [hc]; omega), List.nil_append]
      have hloop : (printerLoop d s p (x :: xs)).2
          = (printerLoop d s (p + 1) xs).2 := by
        simp only [printerLoop]
        rw [if_neg htr]
      rw [hloop, ih (p + 1) (by omega) (by omega)]
      congr 1
      apply List.filter_congr
      intro i _
      rw [show p + ((i : Int) + 1) + 1 = p + 1 + (i : Int) + 1 by omega]

lemma printerLoop_phase (d : Int) (s : ℚ) :
    ∀ (l : List ℚ) (p : Int), 0 ≤ p → p < d →
    (printerLoop d s p l).1 = (p + l.length) % d := by
  intro l
  induction l with
  | nil =>
    intro p h0 hp
    simp [printerLoop]
    exact (Int.emod_eq_of_lt h0 hp).symm
  | cons x xs ih =>
    intro p h0 hp
    by_cases htr : d ≤ p + 1
    · have hloop : (printerLoop d s p (x :: xs)).1 = (printerLoop d s 0 xs).1 := by
        simp only [printerLoop]
        rw [if_pos htr, show p + 1 - d = 0 by omega]
      rw [hloop, ih 0 le_rfl (by omega)]
      rw [show p + ((x :: xs).length : Int) = d + ((xs.length : Int)) by
        simp only [List.length_cons]
        push_cast
        omega]
      rw [addSelfEmod, zero_add]
    · have hloop : (printerLoop d s p (x :: xs)).1
          = (printerLoop d s (p + 1) xs).1 := by
        simp only [printerLoop]
        rw [if_neg htr]
      rw [hloop, ih (p + 1) (by omega) (by omega)]
      congr 1
      simp only [List.length_cons]
      push_cast
      ring

lemma printerLoop_phase_sum (d : Int) (s : ℚ) :
    ∀ (l : List ℚ) (p : Int),
    (printerLoop d s p l).1 =
      p + l.length - d * ((printerLoop d s p l).2).length := by
  intro l
  induction l with
  | nil =>
    intro p
    simp [printerLoop]
  | cons x xs ih =>
    intro p
    by_cases htr : d ≤ p + 1
    · have h1 : (printerLoop d s p (x :: xs)).1 = (printerLoop d s (p + 1 - d) xs).1 := by
        simp only [printerLoop]
        rw [if_pos htr]
      have h2 : (printerLoop d s p (x :: xs)).2
          = x * s :: (printerLoop d s (p + 1 - d) xs).2 := by
        simp only [printerLoop]
        rw [if_pos htr]
      rw [h1, h2, ih (p + 1 - d)]
      simp only [List.length_cons, List.length_cons]
      push_cast
      ring
    · have h1 : (printerLoop d s p (x :: xs)).1 = (printerLoop d s (p + 1) xs).1 := by
        simp only [printerLoop]
        rw [if_neg htr]
      have h2 : (printerLoop d s p (x :: xs)).2 = (printerLoop d s (p + 1) xs).2 := by
        simp only [printerLoop]
        rw [if_neg htr]
      rw [h1, h2, ih (p + 1)]
      simp only [List.length_cons]
      push_cast
      ring

/-! ## Claims -/

/-- Claim C1, counterexample: for input width 2 and output width 8 the integer
pair (4, 1) satisfies 4 elements of size 2 = 1 element of size 8 byte for
byte, yet the serializer constructor's size check fails, so construction does
not fail "if and only if no such integer pair exists". -/
theorem serializer_ctor_counterexample :
    4 * 2 = 1 * 8 ∧ serializer_ctor_ok 2 8 = false := by
  constructor
  · rfl
  · rfl

/-- Claim C1, amended: the serializer constructor succeeds exactly when the
two element sizes are equal; in that case it computes nin = nout = 1, which is
the smallest integer pair with nin·sizeof(Tin) = nout·sizeof(Tout).  For all
unequal sizes construction fails fatally, even when an integer pair exists. -/
theorem serializer_ctor_amended (a b : Nat) (ha : 1 ≤ a) (hb : 1 ≤ b) :
    (serializer_ctor_ok a b = true ↔ a = b) ∧
    (a = b →
      serializer_nin a b = 1 ∧ serializer_nout a b = 1 ∧
      ∀ m n : Nat, 1 ≤ m → 1 ≤ n → m * a = n * b →
        serializer_nin a b ≤ m ∧ serializer_nout a b ≤ n) := by
  constructor
  · unfold serializer_ctor_ok serializer_nin serializer_nout
    rw [beq_iff_eq]
    constructor
    · intro h
      by_contra hne
      rcases Nat.lt_or_ge a b with hab | hab
      · have h1 : a / b = 0 := Nat.div_eq_of_lt hab
        have h2 : 1 ≤ b / a := (Nat.one_le_div_iff ha).mpr (by omega)
        rw [h1] at h
        have h3 : max 1 0 = 1 := rfl
        rw [h3, one_mul] at h
        have h4 : max 1 (b / a) = b / a := by omega
        rw [h4] at h
        have h5 : b ≤ b / a * b := Nat.le_mul_of_pos_left b (by omega)
        omega
      · have hba : b < a := by omega
        have h1 : b / a = 0 := Nat.div_eq_of_lt hba
        have h2 : 1 ≤ a / b := (Nat.one_le_div_iff hb).mpr (by omega)
        rw [h1] at h
        have h3 : max 1 0 = 1 := rfl
        rw [h3, one_mul] at h
        have h4 : max 1 (a / b) = a / b := by omega
        rw [h4] at h
        have h5 : a ≤ a / b * a := Nat.le_mul_of_pos_left a (by omega)
        omega
    · intro h
      subst h
      rw [Nat.div_self (by omega)]
  · intro h
    subst h
    unfold serializer_nin serializer_nout
    rw [Nat.div_self (by omega)]
    refine ⟨rfl, rfl, ?_⟩
    intro m n hm hn _
    simpa using ⟨hm, hn⟩

/-- Witness for C1's amended theorem at equal sizes 4 and 4. -/
theorem serializer_ctor_amended_witness :
    serializer_ctor_ok 4 4 = true ∧ serializer_nin 4 4 = 1 := by
  have h := serializer_ctor_amended 4 4 (by decide) (by decide)
  exact ⟨h.1.mpr rfl, (h.2 rfl).1⟩

/-- Claim C2: evaluation of the serializer constructor at input width 2 and
output width 8.  The code computes nin = max(1, 2/8) = 1 and
nout = max(1, 8/2) = 4 — the two divisions are swapped relative to the
documented intent (nin = 4, nout = 1) — and its own size check
1*2 != 4*8 then calls fail, so no width-2-to-width-8 serializer can be
constructed at all. -/
theorem serializer_ctor_bug_eval :
    serializer_nin 2 8 = 1 ∧ serializer_nout 2 8 = 4 ∧
    serializer_ctor_ok 2 8 = false := by
  refine ⟨rfl, rfl, rfl⟩

/-- Claim C3: if the initial read of `file_reader::run` returns a positive
byte count `r0` that is not a multiple of the element width `w`, then
(a) whenever the invocation commits `k` elements, the completion loop obtained
exactly the remaining `w - r0 % w` bytes of the torn final element, so the
total byte count `k * w` is whole and equals `r0` rounded up to the element
boundary; and (b) if any completion read returns a zero or negative result
(after earlier completion reads that were positive and still left bytes
missing), the invocation is fatal with "partial read". -/
theorem file_reader_torn_read (w writable : Nat) (r0 : Int)
    (hw : 0 < w) (hr0 : 0 < r0) (hcap : r0.toNat ≤ writable * w)
    (hpart : r0.toNat % w ≠ 0) :
    (∀ (rs : List Int) (k : Nat), boundedReads rs (w - r0.toNat % w) = true →
      fileReader_run w writable (r0 :: rs) = Except.ok k →
      k * w = r0.toNat + (w - r0.toNat % w)) ∧
    (∀ (pre : List Int) (r : Int) (suf : List Int),
      (∀ x ∈ pre, 0 < x) → sumToNat pre < w - r0.toNat % w → r ≤ 0 →
      fileReader_run w writable (r0 :: (pre ++ r :: suf)) =
        Except.error "partial read") := by
  have hsz : ¬ writable * w = 0 := by
    have : 0 < r0.toNat := by omega
    omega
  have hnlt : ¬ r0 < 0 := by omega
  have hnz : ¬ r0 = 0 := by omega
  constructor
  · intro rs k hb hrun
    simp only [fileReader_run, if_neg hsz, if_neg hnlt, if_neg hnz,
      if_pos hpart] at hrun
    rcases htl : tornLoop rs r0.toNat (w - r0.toNat % w) with t | e
    · rw [htl] at hrun
      exact absurd hrun (by simp)
    · rw [htl] at hrun
      simp only [Except.ok.injEq] at hrun
      have hex := tornLoop_exact rs r0.toNat (w - r0.toNat % w) hb e htl
      have hdvd : w ∣ r0.toNat + (w - r0.toNat % w) := by
        have hmod : r0.toNat % w < w := Nat.mod_lt _ hw
        have hdm := Nat.div_add_mod r0.toNat w
        refine ⟨r0.toNat / w + 1, ?_⟩
        have hdist : w * (r0.toNat / w + 1) = w * (r0.toNat / w) + w := by ring
        omega
      rw [← hrun, ← hex]
      rw [hex, Nat.div_mul_cancel hdvd]
  · intro pre r suf hpos hsum hr
    simp only [fileReader_run, if_neg hsz, if_neg hnlt, if_neg hnz,
      if_pos hpart]
    rw [tornLoop_fatal pre (w - r0.toNat % w) hpos hsum r suf r0.toNat hr]

/-- Witness for C3 at element width 4: the first read delivers 6 of the 8
requested bytes, one completion read delivers the remaining 2, and exactly 2
whole elements are committed. -/
theorem file_reader_torn_read_witness :
    fileReader_run 4 2 [6, 2] = Except.ok 2 ∧
    2 * 4 = (6 : Int).toNat + (4 - (6 : Int).toNat % 4) := by
  have h := (file_reader_torn_read 4 2 6 (by decide) (by decide) (by decide)
    (by decide)).1 [2] 2 (by decide) (by rfl)
  exact ⟨rfl, h⟩

/-- Claim C4: with output capacity at least 1, `rate_estimator::run` consumes
exactly min(numerator readable, denominator readable) elements from both
inputs, adds them to the running sums, and then either — if the accumulated
denominator sum has reached the threshold — emits exactly the ratio
(numerator sum) / (denominator sum) and resets both sums to zero, or —
otherwise — emits nothing and keeps the accumulated sums. -/
theorem rate_estimator_run_spec (ss : Int) (s : RateEst)
    (nums dens : List Int) (w : Nat) (hw : 1 ≤ w) :
    ((ss : ℚ) ≤ s.acc_den + sumQ (dens.take (min nums.length dens.length)) →
      rate_estimator_run ss s nums dens w =
        (⟨0, 0⟩, min nums.length dens.length,
         some ((s.acc_num + sumQ (nums.take (min nums.length dens.length))) /
               (s.acc_den + sumQ (dens.take (min nums.length dens.length)))))) ∧
    (s.acc_den + sumQ (dens.take (min nums.length dens.length)) < (ss : ℚ) →
      rate_estimator_run ss s nums dens w =
        (⟨s.acc_num + sumQ (nums.take (min nums.length dens.length)),
          s.acc_den + sumQ (dens.take (min nums.length dens.length))⟩,
         min nums.length dens.length, none)) := by
  have hnw : ¬ w < 1 := by omega
  have hacc := accLoop_eq (min nums.length dens.length) nums dens
    s.acc_num s.acc_den (Nat.min_le_left _ _) (Nat.min_le_right _ _)
  constructor
  · intro hth
    simp only [rate_estimator_run, if_neg hnw, hacc]
    rw [if_pos hth]
  · intro hth
    simp only [rate_estimator_run, if_neg hnw, hacc]
    rw [if_neg (by exact not_le.mpr hth)]

/-- Witness for C4: sample_size 100, accumulators 0, inputs [7,3] and
[60,40]; the denominator sum reaches exactly 100, one ratio 10/100 = 1/10 is
emitted and both accumulators are reset to 0. -/
theorem rate_estimator_run_spec_witness :
    rate_estimator_run 100 ⟨0, 0⟩ [7, 3] [60, 40] 1 =
      (⟨0, 0⟩, 2, some (1 / 10)) := by
  have h := (rate_estimator_run_spec 100 ⟨0, 0⟩ [7, 3] [60, 40] 1
    (by decide)).1 (by norm_num [sumQ])
  rw [h]
  norm_num [sumQ]

/-- Claim C5: an invocation of `rate_estimator::run` with zero writable
output capacity consumes nothing from either input, leaves both accumulators
unchanged, and emits nothing. -/
theorem rate_estimator_zero_writable_claim (ss : Int) (s : RateEst)
    (nums dens : List Int) :
    rate_estimator_run ss s nums dens 0 = (s, 0, none) :=
  rate_estimator_zero_writable ss s nums dens

/-- Claim C6: for factor d ≥ 1 and output capacity at least ⌊N/d⌋,
`decimator::run` forwards exactly ⌊N/d⌋ elements, equal to the input elements
at positions 0, d, 2d, … in order, consumes exactly ⌊N/d⌋·d input elements,
and leaves the remaining N mod d elements on the input stream. -/
theorem decimator_run_spec {α : Type} (d : Nat) (hd : 1 ≤ d)
    (input : List α) (writable : Nat) (hw : input.length / d ≤ writable) :
    (decimator_run d input writable).1.length = input.length / d ∧
    (∀ i, i < input.length / d →
      ((decimator_run d input writable).1)[i]? = input[i * d]?) ∧
    (decimator_run d input writable).2 = input.length / d * d ∧
    input.length - (decimator_run d input writable).2 = input.length % d := by
  have hcount : min (input.length / d) writable = input.length / d :=
    min_eq_left hw
  have hcd : input.length / d * d ≤ input.length := by
    have := Nat.div_add_mod input.length d
    have h2 : d * (input.length / d) = input.length / d * d := by ring
    omega
  refine ⟨?_, ?_, ?_, ?_⟩
  · show (decLoop d (min (input.length / d) writable) input).length = _
    rw [hcount]
    exact decLoop_length d hd (input.length / d) input hcd
  · intro i hi
    show (decLoop d (min (input.length / d) writable) input)[i]? = _
    rw [hcount]
    exact decLoop_get d hd (input.length / d) input hcd i hi
  · show min (input.length / d) writable * d = _
    rw [hcount]
  · show input.length - min (input.length / d) writable * d = _
    rw [hcount]
    have := Nat.div_add_mod input.length d
    have h2 : d * (input.length / d) = input.length / d * d := by ring
    omega

/-- Witness for C6: factor 3 over 7 elements with capacity 2 forwards
[10, 40] (positions 0 and 3), consumes 6 elements and leaves 1 = 7 mod 3. -/
theorem decimator_run_spec_witness :
    decimator_run 3 [10, 20, 30, 40, 50, 60, 70] 2 = ([10, 40], 6) ∧
    (decimator_run 3 [10, 20, 30, 40, 50, 60, 70] 2).1[1]? =
      [10, 20, 30, 40, 50, 60, 70][1 * 3]? := by
  refine ⟨rfl, ?_⟩
  exact (decimator_run_spec 3 (by decide) [10, 20, 30, 40, 50, 60, 70] 2
    (by decide)).2.1 1 (by decide)

/-- Claim C7: `file_printer::run` increments the phase once per readable
element and emits exactly at the elements where the counter reaches the
decimation factor (the i-th element, 0-based, is printed iff
(phase0 + i + 1) is divisible by the factor), emitting the element value
times the scale; the final phase is the old phase plus the element count
minus the factor times the number of emissions (the excess is subtracted at
each emission); and all readable elements are consumed in the same
invocation regardless of the number of emissions. -/
theorem file_printer_run_spec (d : Int) (s : ℚ) (p0 : Int) (l : List ℚ)
    (hd : 1 ≤ d) (h0 : 0 ≤ p0) (hp : p0 < d) :
    (file_printer_run d s p0 l).2.1 =
      ((List.range l.length).filter
          (fun (i : Nat) => decide ((p0 + (i : Int) + 1) % d = 0))).map
        (fun i => l.getD i 0 * s) ∧
    (file_printer_run d s p0 l).1 = (p0 + l.length) % d ∧
    (file_printer_run d s p0 l).1 =
      p0 + l.length - d * ((file_printer_run d s p0 l).2.1).length ∧
    (file_printer_run d s p0 l).2.2 = l.length := by
  refine ⟨?_, ?_, ?_, rfl⟩
  · exact printerLoop_out d s l p0 h0 hp
  · exact printerLoop_phase d s l p0 h0 hp
  · exact printerLoop_phase_sum d s l p0

/-- Witness for C7: decimation 3, scale 1, initial phase 0, 7 elements fed;
exactly 2 lines are emitted — the values of the 3rd and 6th elements — all 7
elements are consumed, and the final phase is 1. -/
theorem file_printer_run_spec_witness :
    file_printer_run 3 1 0 [1, 2, 3, 4, 5, 6, 7] = (1, [3, 6], 7) ∧
    (file_printer_run 3 1 0 [1, 2, 3, 4, 5, 6, 7]).2.2 = 7 := by
  refine ⟨by norm_num [file_printer_run, printerLoop], ?_⟩
  exact (file_printer_run_spec 3 1 0 [1, 2, 3, 4, 5, 6, 7] (by decide)
    (by decide) (by decide)).2.2.2

/-- Claim C8, counterexample: an element whose formatted representation is
300 bytes overflows the 256-byte staging buffer, yet if the `write` then
reports 300 bytes written, `file_printer::run` performs no fatal call and
continues — a formatting-buffer overflow is not detected. -/
theorem printer_emit_overflow_counterexample :
    (printer_bufsize : Int) ≤ 300 ∧ printer_emit 300 300 = Except.ok () := by
  exact ⟨by decide, rfl⟩

/-- Claim C8, amended: `file_printer::run` reports a fatal condition iff the
`snprintf` result is negative (formatting failure) or the `write` result
differs from the formatted length; a formatted length that overflows the
staging buffer is not itself checked, so an overflow whose write call echoes
the full formatted length is not fatal. -/
theorem printer_emit_amended (len nw : Int) :
    ((printer_emit len nw ≠ Except.ok ()) ↔ (len < 0 ∨ nw ≠ len)) ∧
    ((printer_bufsize : Int) ≤ len → nw = len →
      printer_emit len nw = Except.ok ()) := by
  constructor
  · unfold printer_emit
    by_cases h1 : len < 0
    · simp [h1]
    · by_cases h2 : nw = len
      · simp [h1, h2]
      · simp [h1, h2]
  · intro hov hnw
    unfold printer_emit
    rw [if_neg (by omega), if_neg (by omega)]

/-- Witness for C8's amended theorem: a negative `snprintf` result is fatal,
and an overflowing length 400 with a matching write is not. -/
theorem printer_emit_amended_witness :
    printer_emit (-1) 0 ≠ Except.ok () ∧
    printer_emit 400 400 = Except.ok () := by
  exact ⟨(printer_emit_amended (-1) 0).1.mpr (Or.inl (by decide)),
    (printer_emit_amended 400 400).2 (by decide) rfl⟩

/-- Claim C10: the decimator constructor stores the factor with no
validation (0 is accepted unchanged), and the step's division
`in.readable()/d` makes the step total only under d ≥ 1: for d = 0 the
division by zero (undefined, trapping, in C) is reachable from the public
interface on every input, while for every d ≥ 1 the step is well defined. -/
theorem decimator_unvalidated_factor :
    decimator_ctor 0 = 0 ∧
    (∀ (l : List ℚ) (writable : Nat), decimator_run_checked 0 l writable = none) ∧
    (∀ d : Nat, 1 ≤ d → ∀ (l : List ℚ) (writable : Nat),
      decimator_run_checked d l writable = some (decimator_run d l writable)) := by
  refine ⟨rfl, ?_, ?_⟩
  · intro l writable
    rfl
  · intro d hd l writable
    unfold decimator_run_checked
    rw [if_neg (by omega)]

/-- Witness for C10 at d = 0 and d = 1. -/
theorem decimator_unvalidated_factor_witness :
    decimator_run_checked 0 ([1] : List ℚ) 5 = none ∧
    decimator_run_checked 1 ([1] : List ℚ) 5 = some (decimator_run 1 [1] 5) := by
  exact ⟨decimator_unvalidated_factor.2.1 [1] 5,
    decimator_unvalidated_factor.2.2 1 (by decide) [1] 5⟩

/-- Claim C9, counterexample: a `rate_estimator` invocation that observes
zero readable elements on both inputs but has output capacity still emits a
ratio and resets its accumulators whenever the previously accumulated
denominator already meets the (publicly settable) threshold — here
sample_size 100 with accumulators (7, 150): nothing is consumed, yet a value
is emitted and the persistent state changes, contradicting "performs no
work" for every block. -/
theorem blocks_backpressure_counterexample :
    (rate_estimator_run 100 ⟨7, 150⟩ [] [] 1).2.2 ≠ none ∧
    (rate_estimator_run 100 ⟨7, 150⟩ [] [] 1).1 ≠ ⟨7, 150⟩ ∧
    (rate_estimator_run 100 ⟨7, 150⟩ [] [] 1).2.1 = 0 := by
  have h : rate_estimator_run 100 ⟨7, 150⟩ [] [] 1 =
      (⟨0, 0⟩, 0, some (7 / 150)) := by
    unfold rate_estimator_run
    norm_num [accLoop]
  rw [h]
  refine ⟨by simp, ?_, rfl⟩
  intro hc
  have := congrArg RateEst.acc_den hc
  norm_num at this

/-- Claim C9, amended: every block other than the rate estimator performs no
work on zero readable input or zero writable output — it consumes nothing,
emits nothing and leaves persistent state unchanged.  The rate estimator
performs no work when its output has zero writable capacity; with available
output capacity and zero readable elements on an input it consumes and
accumulates nothing and, provided the accumulated denominator is still below
the threshold (which the block's own dynamics preserve for a fixed positive
threshold), also emits nothing and keeps its state — but if the accumulated
denominator already meets the threshold it still emits one ratio and resets. -/
theorem blocks_backpressure_amended :
    (∀ (w : Nat) (reads : List Int), fileReader_run w 0 reads = Except.ok 0) ∧
    (∀ (st : Nat) (nw : Int), file_writer_run st 0 nw = Except.ok 0) ∧
    (∀ (d : Int) (s : ℚ) (p : Int), file_printer_run d s p [] = (p, [], 0)) ∧
    (∀ (b : Bool) (s : ℚ), carrayprinter_run b s [] = ([], 0)) ∧
    (∀ r : Nat, itemcounter_run r 0 = (none, 0)) ∧
    (∀ w : Nat, itemcounter_run 0 w = (none, 0)) ∧
    (∀ (d : Nat) (l : List ℚ), 1 ≤ d → decimator_run d l 0 = ([], 0)) ∧
    (∀ (d w : Nat), 1 ≤ d → decimator_run d ([] : List ℚ) w = ([], 0)) ∧
    (∀ (nin nout fuel w : Nat), 1 ≤ nin → serLoop nin nout fuel 0 w = (0, 0)) ∧
    (∀ (nin nout fuel r : Nat), 1 ≤ nout → serLoop nin nout fuel r 0 = (0, 0)) ∧
    (∀ (c p : Nat), buffer_reader_run c p 0 = 0) ∧
    (∀ (c p : Nat), buffer_writer_run c p 0 = 0) ∧
    (∀ (ss : Int) (s : RateEst) (nums dens : List Int),
      rate_estimator_run ss s nums dens 0 = (s, 0, none)) ∧
    (∀ (ss : Int) (an ad : ℚ) (nums dens : List Int) (w : Nat), 1 ≤ w →
      min nums.length dens.length = 0 → ad < (ss : ℚ) →
      rate_estimator_run ss ⟨an, ad⟩ nums dens w = (⟨an, ad⟩, 0, none)) ∧
    (∀ (ss : Int) (an ad : ℚ) (nums dens : List Int) (w : Nat), 1 ≤ w →
      min nums.length dens.length = 0 → (ss : ℚ) ≤ ad →
      rate_estimator_run ss ⟨an, ad⟩ nums dens w = (⟨0, 0⟩, 0, some (an / ad))) := by
  refine ⟨?_, ?_, ?_, ?_, ?_, ?_, ?_, ?_, ?_, ?_, ?_, ?_, ?_, ?_, ?_⟩
  · intro w reads
    simp [fileReader_run]
  · intro st nw
    simp [file_writer_run]
  · intro d s p
    rfl
  · intro b s
    rfl
  · intro r
    rfl
  · intro w
    unfold itemcounter_run
    by_cases h : w < 1
    · rw [if_pos h]
    · rw [if_neg h, if_pos rfl]
  · intro d l hd
    unfold decimator_run
    rw [Nat.min_zero]
    simp [decLoop]
  · intro d w hd
    unfold decimator_run
    simp [decLoop]
  · intro nin nout fuel w hnin
    cases fuel with
    | zero => rfl
    | succ f =>
      unfold serLoop
      rw [if_neg (by omega)]
  · intro nin nout fuel r hnout
    cases fuel with
    | zero => rfl
    | succ f =>
      unfold serLoop
      rw [if_neg (by omega)]
  · intro c p
    simp [buffer_reader_run]
  · intro c p
    simp [buffer_writer_run]
  · intro ss s nums dens
    exact rate_estimator_zero_writable ss s nums dens
  · intro ss an ad nums dens w hw hmin hth
    unfold rate_estimator_run
    rw [if_neg (by omega), hmin]
    show (if (ss : ℚ) ≤ (accLoop 0 nums dens an ad).2 then _ else _) = _
    rw [show accLoop 0 nums dens an ad = (an, ad) from rfl,
      if_neg (by exact not_le.mpr hth)]
  · intro ss an ad nums dens w hw hmin hth
    unfold rate_estimator_run
    rw [if_neg (by omega), hmin]
    show (if (ss : ℚ) ≤ (accLoop 0 nums dens an ad).2 then _ else _) = _
    rw [show accLoop 0 nums dens an ad = (an, ad) from rfl, if_pos hth]

/-- Witness for C9's amended theorem: the item counter with empty input does
nothing, and a below-threshold rate estimator with empty inputs and output
capacity 1 does nothing. -/
theorem blocks_backpressure_amended_witness :
    itemcounter_run 0 3 = (none, 0) ∧
    rate_estimator_run 100 ⟨7, 50⟩ [] [3] 1 = (⟨7, 50⟩, 0, none) := by
  obtain ⟨-, -, -, -, -, h6, -, -, -, -, -, -, -, h14, -⟩ :=
    blocks_backpressure_amended
  exact ⟨h6 3, h14 100 7 50 [] [3] 1 (by decide) (by decide) (by norm_num)⟩
